import Mathlib

open Real

/-- A geographic fix: latitude and longitude in degrees. -/
structure GeoPoint where
  lat : ℝ
  lng : ℝ

/-- Two-argument arctangent with the semantics of the atan2 primitive the
source calls: result in (-pi, pi], and atan2 0 0 = 0. -/
noncomputable def atan2 (y x : ℝ) : ℝ :=
  if 0 < x then arctan (y / x)
  else if x < 0 then
    (if 0 ≤ y then arctan (y / x) + π else arctan (y / x) - π)
  else
    (if 0 < y then π / 2 else if y < 0 then -(π / 2) else 0)

/-- Truncation toward zero, as the remainder primitive of the source language
computes it on real operands. -/
noncomputable def jsTrunc (x : ℝ) : ℤ :=
  if 0 ≤ x then ⌊x⌋ else ⌈x⌉

/-- The remainder operation of the source language on real operands:
a - b * trunc (a / b), so the result carries the sign of the dividend. -/
noncomputable def jsMod (a b : ℝ) : ℝ :=
  a - b * jsTrunc (a / b)

/-- Half-up rounding of the source language: round x = floor (x + 1/2). -/
noncomputable def jsRound (x : ℝ) : ℤ :=
  ⌊x + 1 / 2⌋

/-- Array indexing of the source language: an index outside the array yields
an undefined value, modelled as none. -/
def jsArrayGet (l : List String) (i : ℤ) : Option String :=
  if 0 ≤ i then l.get? i.toNat else none

/-- The bearing calculator of the compass component (calculateBearing):
absent or numerically identical fixes yield 0; otherwise the spherical
forward azimuth in degrees, normalized by ((theta + 360) % 360). -/
noncomputable def calculateBearing : Option GeoPoint → Option GeoPoint → ℝ
  | none, _ => 0
  | some _, none => 0
  | some s, some e =>
    if s.lat = e.lat ∧ s.lng = e.lng then 0
    else
      let startLat := s.lat * π / 180
      let startLng := s.lng * π / 180
      let endLat := e.lat * π / 180
      let endLng := e.lng * π / 180
      let dLng := endLng - startLng
      let y := Real.sin dLng * Real.cos endLat
      let x := Real.cos startLat * Real.sin endLat -
        Real.sin startLat * Real.cos endLat * Real.cos dLng
      jsMod (atan2 y x * (180 / π) + 360) 360

/-- The eight compass labels of the source, clockwise from north. -/
def directions : List String := ["N", "NE", "E", "SE", "S", "SW", "W", "NW"]

/-- The sector classifier of the compass component (bearingToDirection):
directions[round(bearing / 45) % 8], where % is the truncated remainder. -/
noncomputable def bearingToDirection (bearing : ℝ) : Option String :=
  jsArrayGet directions (Int.tmod (jsRound (bearing / 45)) 8)

/-- The published presentation state of the compass component: the continuous
degree value that drives the needle and the discrete label text. -/
structure PresentationState where
  direction : Option String
  degrees : ℝ

/-- The initial component state: direction N, degrees 0. -/
def initialState : PresentationState :=
  { direction := some "N", degrees := 0 }

/-- One update of the compass effect: when both fixes are present, recompute
the bearing and the label; otherwise leave the state unchanged. -/
noncomputable def compassUpdate (busLocation previousLocation : Option GeoPoint)
    (s : PresentationState) : PresentationState :=
  match busLocation, previousLocation with
  | some bus, some prev =>
    let bearing := calculateBearing (some prev) (some bus)
    { direction := bearingToDirection bearing, degrees := bearing }
  | _, _ => s

/-- Run a sequence of (busLocation, previousLocation) updates from the
initial state. -/
noncomputable def runUpdates (updates : List (Option GeoPoint × Option GeoPoint)) :
    PresentationState :=
  updates.foldl (fun s u => compassUpdate u.1 u.2 s) initialState

/-- The specification's forward-azimuth formula for two present, distinct
points, written from the spec text, with its final normalization read as the
mathematical mod into [0, 360). -/
noncomputable def specBearing (s e : GeoPoint) : ℝ :=
  let dLng := e.lng * π / 180 - s.lng * π / 180
  let y := Real.sin dLng * Real.cos (e.lat * π / 180)
  let x := Real.cos (s.lat * π / 180) * Real.sin (e.lat * π / 180) -
    Real.sin (s.lat * π / 180) * Real.cos (e.lat * π / 180) * Real.cos dLng
  let theta := atan2 y x * (180 / π)
  (theta + 360) - 360 * ⌊(theta + 360) / 360⌋

/-- The specification's 8-way partition of [0, 360): each label covers a
45-degree sector centered on its direction, boundaries going to the clockwise
next label, with N also covering [337.5, 360). -/
noncomputable def specSector (b : ℝ) : String :=
  if b < 22.5 then "N"
  else if b < 67.5 then "NE"
  else if b < 112.5 then "E"
  else if b < 157.5 then "SE"
  else if b < 202.5 then "S"
  else if b < 247.5 then "SW"
  else if b < 292.5 then "W"
  else if b < 337.5 then "NW"
  else "N"

lemma neg_pi_lt_atan2 (y x : ℝ) : -π < atan2 y x := by
  have hpi := pi_pos
  unfold atan2
  split
  · have := neg_pi_div_two_lt_arctan (y / x)
    linarith
  · split
    · split
      · have := neg_pi_div_two_lt_arctan (y / x)
        linarith
      · rename_i hx0 hx hy
        have hyx : 0 < y / x := div_pos_of_neg_of_neg (by linarith) hx
        have : 0 < arctan (y / x) := by
          have := arctan_strictMono (show (0:ℝ) < y / x from hyx)
          simpa [arctan_zero] using this
        linarith
    · split
      · linarith
      · split
        · linarith
        · linarith

lemma atan2_le_pi (y x : ℝ) : atan2 y x ≤ π := by
  have hpi := pi_pos
  unfold atan2
  split
  · have := arctan_lt_pi_div_two (y / x)
    linarith
  · split
    · split
      · rename_i hx0 hx hy
        have hyx : y / x ≤ 0 := div_nonpos_of_nonneg_of_nonpos hy (by linarith)
        have : arctan (y / x) ≤ 0 := by
          have := arctan_strictMono.monotone hyx
          simpa [arctan_zero] using this
        linarith
      · have := arctan_lt_pi_div_two (y / x)
        linarith
    · split
      · linarith
      · split
        · linarith
        · linarith

lemma jsMod_nonneg_lt (a b : ℝ) (ha : 0 ≤ a) (hb : 0 < b) :
    0 ≤ jsMod a b ∧ jsMod a b < b := by
  have hab : 0 ≤ a / b := div_nonneg ha hb.le
  have h1 : (⌊a / b⌋ : ℝ) ≤ a / b := Int.floor_le _
  have h2 : a / b < ⌊a / b⌋ + 1 := Int.lt_floor_add_one _
  have h3 : b * (⌊a / b⌋ : ℝ) ≤ a := by
    have := (le_div_iff₀ hb).mp h1
    linarith
  have h4 : a < b * (⌊a / b⌋ : ℝ) + b := by
    have := (div_lt_iff₀ hb).mp h2
    nlinarith
  unfold jsMod jsTrunc
  rw [if_pos hab]
  constructor
  · linarith
  · linarith

lemma theta_plus_360_pos (y x : ℝ) : 180 < atan2 y x * (180 / π) + 360 := by
  have hpi := pi_pos
  have h180 : (0:ℝ) < 180 / π := by positivity
  have hlo : -π < atan2 y x := neg_pi_lt_atan2 y x
  have h1 : -π * (180 / π) < atan2 y x * (180 / π) :=
    mul_lt_mul_of_pos_right hlo h180
  have h2 : -π * (180 / π) = -180 := by
    field_simp
    ring
  linarith

lemma theta_plus_360_nonneg (y x : ℝ) : 0 ≤ atan2 y x * (180 / π) + 360 := by
  linarith [theta_plus_360_pos y x]

lemma bearing_expr_range (y x : ℝ) :
    0 ≤ jsMod (atan2 y x * (180 / π) + 360) 360 ∧
    jsMod (atan2 y x * (180 / π) + 360) 360 < 360 :=
  jsMod_nonneg_lt _ _ (by linarith [theta_plus_360_pos y x]) (by norm_num)

/-- Claim C2: for every input pair, including the degenerate cases, the value
returned by the bearing calculator lies in the half-open interval [0, 360). -/
theorem calculateBearing_mem_Ico (start endPoint : Option GeoPoint) :
    0 ≤ calculateBearing start endPoint ∧ calculateBearing start endPoint < 360 := by
  match start, endPoint with
  | none, _ => simp [calculateBearing]
  | some s, none => simp [calculateBearing]
  | some s, some e =>
    simp only [calculateBearing]
    split
    · norm_num
    · exact bearing_expr_range _ _

lemma jsMod_eq_floor_form (a b : ℝ) (ha : 0 ≤ a) (hb : 0 < b) :
    jsMod a b = a - b * ⌊a / b⌋ := by
  unfold jsMod jsTrunc
  rw [if_pos (div_nonneg ha hb.le)]

/-- Claim C1: for every pair of present, non-identical GeoPoints the bearing
calculator returns the spherical forward azimuth of the specification:
degree-to-radian conversion, dLng = end.lng - start.lng,
y = sin(dLng)*cos(end.lat),
x = cos(start.lat)*sin(end.lat) - sin(start.lat)*cos(end.lat)*cos(dLng),
theta = atan2(y, x) in degrees, normalized via ((theta + 360) mod 360). -/
theorem calculateBearing_eq_specBearing (s e : GeoPoint)
    (h : ¬(s.lat = e.lat ∧ s.lng = e.lng)) :
    calculateBearing (some s) (some e) = specBearing s e := by
  simp only [calculateBearing, specBearing, if_neg h]
  exact jsMod_eq_floor_form _ _ (theta_plus_360_nonneg _ _) (by norm_num)

/-- Claim C1 witness: the refinement instantiated at the equator pair. -/
theorem calculateBearing_eq_specBearing_inst :
    calculateBearing (some ⟨0, 0⟩) (some ⟨0, 1⟩) = specBearing ⟨0, 0⟩ ⟨0, 1⟩ :=
  calculateBearing_eq_specBearing ⟨0, 0⟩ ⟨0, 1⟩ (by norm_num)

/-- Claim C3: the bearing calculator returns 0, raising no error, whenever
either input is absent or both are present but numerically identical. -/
theorem calculateBearing_degenerate_zero (start endPoint : Option GeoPoint)
    (h : start = none ∨ endPoint = none ∨
      ∃ s e, start = some s ∧ endPoint = some e ∧ s.lat = e.lat ∧ s.lng = e.lng) :
    calculateBearing start endPoint = 0 := by
  rcases h with h | h | ⟨s, e, hs, he, h1, h2⟩
  · subst h; rfl
  · subst h; cases start <;> rfl
  · subst hs; subst he
    simp only [calculateBearing]
    rw [if_pos ⟨h1, h2⟩]

/-- Claim C3 witness: both inputs absent yields 0. -/
theorem calculateBearing_degenerate_zero_inst : calculateBearing none none = 0 :=
  calculateBearing_degenerate_zero none none (Or.inl rfl)

/-- Claim C9: the bearing calculator is deterministic (equal inputs give equal
outputs) and total (every input pair, degenerate ones included, has a result). -/
theorem calculateBearing_deterministic_total :
    (∀ s1 e1 s2 e2 : Option GeoPoint, s1 = s2 → e1 = e2 →
      calculateBearing s1 e1 = calculateBearing s2 e2) ∧
    (∀ s e : Option GeoPoint, ∃ r : ℝ, calculateBearing s e = r) :=
  ⟨fun _ _ _ _ h1 h2 => by rw [h1, h2], fun s e => ⟨calculateBearing s e, rfl⟩⟩

/-- Claim C9 witness: determinism instantiated at absent inputs. -/
theorem calculateBearing_deterministic_total_inst :
    calculateBearing none none = calculateBearing none none :=
  calculateBearing_deterministic_total.1 none none none none rfl rfl

lemma bearingToDirection_interval (b : ℝ) (k : ℕ)
    (h1 : (k : ℝ) ≤ b / 45 + 1 / 2) (h2 : b / 45 + 1 / 2 < (k : ℝ) + 1) :
    bearingToDirection b = jsArrayGet directions (Int.tmod (k : ℤ) 8) := by
  unfold bearingToDirection jsRound
  have hf : ⌊b / 45 + 1 / 2⌋ = (k : ℤ) := by
    apply Int.floor_eq_iff.mpr
    constructor
    · exact_mod_cast h1
    · push_cast
      exact h2
  rw [hf]

lemma partition_case (b : ℝ) (k : ℕ) (lab : String)
    (hl : (k : ℝ) ≤ b / 45 + 1 / 2) (hh : b / 45 + 1 / 2 < (k : ℝ) + 1)
    (hlab : jsArrayGet directions (Int.tmod (k : ℤ) 8) = some lab)
    (hspec : specSector b = lab) (hmem : lab ∈ directions) :
    bearingToDirection b = some (specSector b) ∧ specSector b ∈ directions := by
  rw [bearingToDirection_interval b k hl hh, hspec, hlab]
  exact ⟨rfl, hmem⟩

/-- Claim C4: over [0, 360) the sector classifier computes
directions[round(bearing / 45) mod 8] over the clockwise list
[N, NE, E, SE, S, SW, W, NW], always yielding one of the 8 labels, and it
coincides with the specification partition in which every label covers exactly
a 45-degree span with no gaps or overlaps at the boundaries. -/
theorem bearingToDirection_partition (b : ℝ) (h0 : 0 ≤ b) (h1 : b < 360) :
    bearingToDirection b = some (specSector b) ∧ specSector b ∈ directions := by
  rcases lt_or_le b 22.5 with hb | hb
  · refine partition_case b 0 "N" (by push_cast; linarith) (by push_cast; linarith)
      (by decide) ?_ (by decide)
    unfold specSector
    rw [if_pos hb]
  · rcases lt_or_le b 67.5 with hc | hc
    · refine partition_case b 1 "NE" (by push_cast; linarith) (by push_cast; linarith)
        (by decide) ?_ (by decide)
      unfold specSector
      rw [if_neg (by linarith), if_pos hc]
    · rcases lt_or_le b 112.5 with hd | hd
      · refine partition_case b 2 "E" (by push_cast; linarith) (by push_cast; linarith)
          (by decide) ?_ (by decide)
        unfold specSector
        rw [if_neg (by linarith), if_neg (by linarith), if_pos hd]
      · rcases lt_or_le b 157.5 with he | he
        · refine partition_case b 3 "SE" (by push_cast; linarith) (by push_cast; linarith)
            (by decide) ?_ (by decide)
          unfold specSector
          rw [if_neg (by linarith), if_neg (by linarith), if_neg (by linarith),
            if_pos he]
        · rcases lt_or_le b 202.5 with hf | hf
          · refine partition_case b 4 "S" (by push_cast; linarith) (by push_cast; linarith)
              (by decide) ?_ (by decide)
            unfold specSector
            rw [if_neg (by linarith), if_neg (by linarith), if_neg (by linarith),
              if_neg (by linarith), if_pos hf]
          · rcases lt_or_le b 247.5 with hg | hg
            · refine partition_case b 5 "SW" (by push_cast; linarith)
                (by push_cast; linarith) (by decide) ?_ (by decide)
              unfold specSector
              rw [if_neg (by linarith), if_neg (by linarith), if_neg (by linarith),
                if_neg (by linarith), if_neg (by linarith), if_pos hg]
            · rcases lt_or_le b 292.5 with hi | hi
              · refine partition_case b 6 "W" (by push_cast; linarith)
                  (by push_cast; linarith) (by decide) ?_ (by decide)
                unfold specSector
                rw [if_neg (by linarith), if_neg (by linarith), if_neg (by linarith),
                  if_neg (by linarith), if_neg (by linarith), if_neg (by linarith),
                  if_pos hi]
              · rcases lt_or_le b 337.5 with hj | hj
                · refine partition_case b 7 "NW" (by push_cast; linarith)
                    (by push_cast; linarith) (by decide) ?_ (by decide)
                  unfold specSector
                  rw [if_neg (by linarith), if_neg (by linarith), if_neg (by linarith),
                    if_neg (by linarith), if_neg (by linarith), if_neg (by linarith),
                    if_neg (by linarith), if_pos hj]
                · refine partition_case b 8 "N" (by push_cast; linarith)
                    (by push_cast; linarith) (by decide) ?_ (by decide)
                  unfold specSector
                  rw [if_neg (by linarith), if_neg (by linarith), if_neg (by linarith),
                    if_neg (by linarith), if_neg (by linarith), if_neg (by linarith),
                    if_neg (by linarith), if_neg (by linarith)]

/-- Claim C4 witness: the partition instantiated at bearing 90. -/
theorem bearingToDirection_partition_inst :
    bearingToDirection 90 = some (specSector 90) ∧ specSector 90 ∈ directions :=
  bearingToDirection_partition 90 (by norm_num) (by norm_num)

lemma bearingToDirection_zero : bearingToDirection 0 = some "N" := by
  have hf : bearingToDirection 0 = jsArrayGet directions (Int.tmod ((0 : ℕ) : ℤ) 8) :=
    bearingToDirection_interval 0 0 (by norm_num) (by norm_num)
  rw [hf]
  decide

/-- Claim C5: a both-present update publishes exactly
{degrees = bearing(previous, current), label = classify(degrees)}, with no
stale caching, and in every reachable presentation state (initial one
included) the label field is the classifier applied to the degrees field. -/
theorem presentationState_consistent :
    (∀ bus prev s, compassUpdate (some bus) (some prev) s =
      { direction := bearingToDirection (calculateBearing (some prev) (some bus)),
        degrees := calculateBearing (some prev) (some bus) }) ∧
    (∀ updates : List (Option GeoPoint × Option GeoPoint),
      (runUpdates updates).direction = bearingToDirection (runUpdates updates).degrees) := by
  constructor
  · intro bus prev s
    rfl
  · intro updates
    have key : ∀ (l : List (Option GeoPoint × Option GeoPoint)) (s : PresentationState),
        s.direction = bearingToDirection s.degrees →
        (l.foldl (fun s u => compassUpdate u.1 u.2 s) s).direction =
          bearingToDirection (l.foldl (fun s u => compassUpdate u.1 u.2 s) s).degrees := by
      intro l
      induction l with
      | nil => intro s hs; exact hs
      | cons u rest ih =>
        intro s hs
        simp only [List.foldl_cons]
        apply ih
        rcases u with ⟨b, p⟩
        cases b with
        | none => exact hs
        | some bv =>
          cases p with
          | none => exact hs
          | some pv => rfl
    have hinit : initialState.direction = bearingToDirection initialState.degrees := by
      rw [show initialState.degrees = 0 from rfl, bearingToDirection_zero]
      rfl
    exact key updates initialState hinit

/-- Claim C7: when either fix is absent the presenter does not recompute:
a single update leaves the state unchanged, and any tail of such updates
retains the last published state (the initial default when nothing was ever
published). -/
theorem idle_retains_state :
    (∀ bus prev s, (bus = none ∨ prev = none) → compassUpdate bus prev s = s) ∧
    (∀ pre post : List (Option GeoPoint × Option GeoPoint),
      (∀ u ∈ post, u.1 = none ∨ u.2 = none) →
      runUpdates (pre ++ post) = runUpdates pre) := by
  have step : ∀ bus prev s, (bus = none ∨ prev = none) → compassUpdate bus prev s = s := by
    intro bus prev s h
    rcases h with h | h
    · subst h
      rfl
    · subst h
      cases bus <;> rfl
  refine ⟨step, ?_⟩
  have tail : ∀ (post : List (Option GeoPoint × Option GeoPoint)) (s : PresentationState),
      (∀ u ∈ post, u.1 = none ∨ u.2 = none) →
      post.foldl (fun s u => compassUpdate u.1 u.2 s) s = s := by
    intro post
    induction post with
    | nil => intro s _; rfl
    | cons u rest ih =>
      intro s h
      simp only [List.foldl_cons]
      rw [step u.1 u.2 s (h u (by simp))]
      exact ih s (fun v hv => h v (by simp [hv]))
  intro pre post hpost
  unfold runUpdates
  rw [List.foldl_append]
  exact tail post _ hpost

/-- Claim C7 witness: an absent-fix update sequence leaves the initial state. -/
theorem idle_retains_state_inst :
    runUpdates ([] ++ [(none, none)]) = runUpdates [] :=
  idle_retains_state.2 [] [(none, none)] (by simp)

/-- Claim C6: at the exact sector boundaries 22.5 + 45k the classifier rounds
the tie up, assigning the clockwise-next label, so classify(22.5) = NE; and
although the calculator never returns 360, classify(360) = N, the correct
wraparound. -/
theorem boundary_ties_round_up :
    (∀ k : ℕ, k < 8 →
      bearingToDirection (22.5 + 45 * (k : ℝ)) =
        jsArrayGet directions (Int.tmod ((k : ℤ) + 1) 8)) ∧
    bearingToDirection 22.5 = some "NE" ∧ bearingToDirection 360 = some "N" := by
  have main : ∀ k : ℕ, bearingToDirection (22.5 + 45 * (k : ℝ)) =
      jsArrayGet directions (Int.tmod ((k : ℤ) + 1) 8) := by
    intro k
    have he : (22.5 + 45 * (k : ℝ)) / 45 + 1 / 2 = (k : ℝ) + 1 := by
      field_simp
      ring
    have h := bearingToDirection_interval (22.5 + 45 * (k : ℝ)) (k + 1)
      (by rw [he]; push_cast; norm_num) (by rw [he]; push_cast; norm_num)
    rw [h]
    norm_num
  refine ⟨fun k _ => main k, ?_, ?_⟩
  · have h0 := bearingToDirection_interval 22.5 1 (by norm_num) (by norm_num)
    rw [h0]
    decide
  · have h := bearingToDirection_interval 360 8 (by norm_num) (by norm_num)
    rw [h]
    decide

/-- Claim C6 witness: the boundary rule instantiated at k = 0, bearing 22.5. -/
theorem boundary_ties_round_up_inst :
    bearingToDirection (22.5 + 45 * ((0 : ℕ) : ℝ)) =
      jsArrayGet directions (Int.tmod (((0 : ℕ) : ℤ) + 1) 8) :=
  boundary_ties_round_up.1 0 (by norm_num)

lemma atan2_pos_zero (y : ℝ) (hy : 0 < y) : atan2 y 0 = π / 2 := by
  unfold atan2
  rw [if_neg (lt_irrefl 0), if_neg (lt_irrefl 0), if_pos hy]

lemma atan2_zero_pos (x : ℝ) (hx : 0 < x) : atan2 0 x = 0 := by
  unfold atan2
  rw [if_pos hx, zero_div, arctan_zero]

lemma sin_pi_div_180_pos : 0 < Real.sin (π / 180) :=
  sin_pos_of_pos_of_lt_pi (by positivity) (div_lt_self pi_pos (by norm_num))

lemma jsMod_450_360 : jsMod 450 360 = 90 := by
  have hf : ⌊(450 : ℝ) / 360⌋ = 1 := by
    apply Int.floor_eq_iff.mpr
    norm_num
  unfold jsMod jsTrunc
  rw [if_pos (by norm_num), hf]
  norm_num

lemma jsMod_360_360 : jsMod 360 360 = 0 := by
  have hf : ⌊(360 : ℝ) / 360⌋ = 1 := by
    apply Int.floor_eq_iff.mpr
    norm_num
  unfold jsMod jsTrunc
  rw [if_pos (by norm_num), hf]
  norm_num

lemma bearingToDirection_90 : bearingToDirection 90 = some "E" := by
  have h := bearingToDirection_interval 90 2 (by norm_num) (by norm_num)
  rw [h]
  decide

/-- Claim C8: the known fixed points hold exactly in the real-valued model:
the bearing from (0,0) to (0,1), due east along the equator, is 90 degrees and
classifies to E; the bearing from (0,0) to (1,0), due north, is 0 degrees and
classifies to N. -/
theorem known_fixed_points :
    calculateBearing (some ⟨0, 0⟩) (some ⟨0, 1⟩) = 90 ∧
    bearingToDirection 90 = some "E" ∧
    calculateBearing (some ⟨0, 0⟩) (some ⟨1, 0⟩) = 0 ∧
    bearingToDirection 0 = some "N" := by
  refine ⟨?_, bearingToDirection_90, ?_, bearingToDirection_zero⟩
  · simp only [calculateBearing]
    rw [if_neg (by norm_num)]
    norm_num
    rw [atan2_pos_zero _ sin_pi_div_180_pos]
    rw [show π / 2 * (180 / π) = 90 by
      field_simp
      ring]
    rw [show (90 : ℝ) + 360 = 450 by norm_num, jsMod_450_360]
  · simp only [calculateBearing]
    rw [if_neg (by norm_num)]
    norm_num
    rw [atan2_zero_pos _ sin_pi_div_180_pos]
    rw [show (0 : ℝ) * (180 / π) + 360 = 360 by norm_num, jsMod_360_360]

lemma jsArrayGet_directions_some {i : ℤ} (h0 : 0 ≤ i) (h8 : i < 8) :
    ∃ d, jsArrayGet directions i = some d := by
  unfold jsArrayGet
  rw [if_pos h0]
  have hlen : i.toNat < directions.length := by
    simp only [directions, List.length_cons, List.length_nil]
    omega
  exact ⟨directions.get ⟨i.toNat, hlen⟩, List.get?_eq_get hlen⟩

/-- Claim C10 counterexample: the bearing -10 is negative, yet the classifier
index round(-10 / 45) mod 8 is 0, not negative, and the lookup is in bounds,
returning the defined label N. -/
theorem negative_bearing_still_defined :
    Int.tmod (jsRound ((-10 : ℝ) / 45)) 8 = 0 ∧
    bearingToDirection (-10) = some "N" := by
  have hf : ⌊(-10 : ℝ) / 45 + 1 / 2⌋ = 0 := by
    apply Int.floor_eq_iff.mpr
    norm_num
  constructor
  · unfold jsRound
    rw [hf]
    decide
  · unfold bearingToDirection jsRound
    rw [hf]
    decide

/-- Claim C10 (amended): under the precondition 0 <= bearing < 360 the index
round(bearing / 45) mod 8 lies in {0, ..., 7} and the array lookup is in
bounds, yielding a defined label; the precondition cannot simply be dropped,
since for negative bearings strictly between -337.5 and -22.5 the truncated
remainder yields a negative index and the lookup is out of bounds — though
not for every negative bearing. -/
theorem classifier_index_bounds :
    (∀ b : ℝ, 0 ≤ b → b < 360 →
      0 ≤ Int.tmod (jsRound (b / 45)) 8 ∧ Int.tmod (jsRound (b / 45)) 8 < 8 ∧
      ∃ d, bearingToDirection b = some d) ∧
    (∀ b : ℝ, -337.5 < b → b < -22.5 →
      Int.tmod (jsRound (b / 45)) 8 < 0 ∧ bearingToDirection b = none) := by
  constructor
  · intro b hb0 hb1
    have hlo : 0 ≤ jsRound (b / 45) := by
      unfold jsRound
      rw [Int.le_floor]
      push_cast
      linarith
    have hhi : jsRound (b / 45) < 9 := by
      unfold jsRound
      rw [Int.floor_lt]
      push_cast
      linarith
    unfold bearingToDirection
    refine ⟨?_, ?_, ?_⟩
    · generalize jsRound (b / 45) = n at hlo hhi
      interval_cases n <;> decide
    · generalize jsRound (b / 45) = n at hlo hhi
      interval_cases n <;> decide
    · apply jsArrayGet_directions_some
      · generalize jsRound (b / 45) = n at hlo hhi
        interval_cases n <;> decide
      · generalize jsRound (b / 45) = n at hlo hhi
        interval_cases n <;> decide
  · intro b hb0 hb1
    have hlo : -7 ≤ jsRound (b / 45) := by
      unfold jsRound
      rw [Int.le_floor]
      push_cast
      linarith
    have hhi : jsRound (b / 45) < 0 := by
      unfold jsRound
      rw [Int.floor_lt]
      push_cast
      linarith
    unfold bearingToDirection
    constructor
    · generalize jsRound (b / 45) = n at hlo hhi
      interval_cases n <;> decide
    · generalize jsRound (b / 45) = n at hlo hhi
      interval_cases n <;> decide

/-- Claim C10 witness: the in-bounds part instantiated at bearing 0. -/
theorem classifier_index_bounds_inst :
    0 ≤ Int.tmod (jsRound ((0 : ℝ) / 45)) 8 ∧
    Int.tmod (jsRound ((0 : ℝ) / 45)) 8 < 8 ∧
    ∃ d, bearingToDirection 0 = some d :=
  classifier_index_bounds.1 0 (by norm_num) (by norm_num)
